import Mathlib

/-!
Verification of the chat-watcher core of `main.py` (7DTD_DBOT).

The program tails a log file, matches each line against

  CHAT_LINE_RE = `Chat \(from '([^']+)'(?:,.*?)\): '([^']+)': (.+)$`

(searched with Python `re.search`), classifies the captured platform id by
prefix, renders a message template by three chained `str.replace` calls, and
posts the result to a webhook.

Strings are modelled as `List Char`.  The regular-expression search is
embedded as an explicit backtracking matcher hand-compiled from the pattern;
each sub-function corresponds to one piece of the pattern, and the comments
justify the compilation against Python's leftmost / greedy / lazy semantics.
-/

/-- Shorthand for string literals as character lists. -/
def strL (s : String) : List Char := s.toList

/-- Match a literal piece of the pattern: if `pre` is a prefix of `s`,
return the rest of `s`, else fail. -/
def dropPrefix? : List Char → List Char → Option (List Char)
  | [], s => some s
  | _ :: _, [] => none
  | p :: ps, c :: cs => if p = c then dropPrefix? ps cs else none

/-- Sub-pattern `[^']*'`: consume characters other than a single quote, then
the closing quote; return the consumed run and the rest.  Since `[^']` can
never match a quote, the greedy `[^']+` followed by a literal `'` admits
exactly one parse (the run up to the first quote), so no backtracking into
this group is ever needed. -/
def scanGroup : List Char → Option (List Char × List Char)
  | [] => none
  | c :: cs =>
    if c = '\'' then some ([], cs)
    else
      match scanGroup cs with
      | some (g, r) => some (c :: g, r)
      | none => none

/-- Sub-pattern `([^']+)'`: like `scanGroup` but the captured run must be
non-empty (`+`). -/
def quotedCapture (s : List Char) : Option (List Char × List Char) :=
  match scanGroup s with
  | some (g, r) => if g = [] then none else some (g, r)
  | none => none

/-- Sub-pattern `(.+)$`: `.` excludes newline, `+` is greedy, `$` matches at
the end of the subject or just before a terminating newline.  Hence the
capture is the maximal newline-free prefix, and it succeeds iff that prefix
is non-empty and reaches the end (allowing one trailing newline). -/
def msgCapture (s : List Char) : Option (List Char) :=
  let p := s.takeWhile (fun c => c ≠ '\n')
  if p ≠ [] ∧ (s = p ∨ s = p ++ ['\n']) then some p else none

/-- Sub-pattern `: '([^']+)': (.+)$` — everything after the closing `\)`.
All pieces here admit a single parse (see `scanGroup`, `msgCapture`), so
failure anywhere means this `\)` choice fails as a whole. -/
def afterQualifier (s : List Char) : Option (List Char × List Char) :=
  match dropPrefix? (strL ": '") s with
  | none => none
  | some s1 =>
    match quotedCapture s1 with
    | none => none
    | some (user, s2) =>
      match dropPrefix? (strL ": ") s2 with
      | none => none
      | some s3 =>
        match msgCapture s3 with
        | none => none
        | some msg => some (user, msg)

/-- Sub-pattern `.*?\)` followed by the rest of the pattern: the lazy star
stops at the first `)` whose continuation succeeds; on failure the `)` is
absorbed by `.*?` and the scan continues.  `.` does not match a newline, so
the scan aborts at a newline. -/
def lazyScan : List Char → Option (List Char × List Char)
  | [] => none
  | c :: cs =>
    if c = ')' then
      match afterQualifier cs with
      | some r => some r
      | none => lazyScan cs
    else if c = '\n' then none
    else lazyScan cs

/-- Attempt the whole pattern at the current position: the literal
`Chat (from '`, the platform-id capture `([^']+)'`, the mandatory comma of
`(?:,.*?)`, then the lazy scan for `\)` and the tail of the pattern. -/
def matchAt (s : List Char) : Option (List Char × List Char × List Char) :=
  match dropPrefix? (strL "Chat (from '") s with
  | none => none
  | some s1 =>
    match quotedCapture s1 with
    | none => none
    | some (pid, s2) =>
      match s2 with
      | c :: s3 =>
        if c = ',' then
          match lazyScan s3 with
          | none => none
          | some (user, msg) => some (pid, user, msg)
        else none
      | [] => none

/-- `re.search`: try the pattern at successive start positions, leftmost
match wins.  (The match at the empty suffix always fails because the pattern
begins with a literal, so stopping at `[]` is equivalent.) -/
def searchChat : List Char → Option (List Char × List Char × List Char)
  | [] => none
  | c :: cs =>
    match matchAt (c :: cs) with
    | some r => some r
    | none => searchChat cs

/-- The character set of `message.strip(" '\"")` in `TailWorker.run`. -/
def stripSet (c : Char) : Bool := c = ' ' || c = '\'' || c = '"'

/-- Python `str.strip(chars)`: remove characters of the set from both
edges. -/
def stripEdges (s : List Char) : List Char :=
  ((s.dropWhile stripSet).reverse.dropWhile stripSet).reverse

/-- The structured event emitted by `TailWorker.run` via `new_chat.emit`. -/
structure ChatEvent where
  platformId : List Char
  user : List Char
  message : List Char
deriving DecidableEq

/-- Lines 73–79 of `main.py`: search the line with `CHAT_LINE_RE`; on a
match, group 1 is the platform id, group 2 the user, and group 3 stripped of
edge space/quote characters is the message. -/
def extractChat (line : List Char) : Option ChatEvent :=
  match searchChat line with
  | none => none
  | some (pid, user, msg) => some ⟨pid, user, stripEdges msg⟩

example :
    extractChat (strL "Chat (from 'Steam_123', Entity): 'Zed': hello world") =
      some ⟨strL "Steam_123", strL "Zed", strL "hello world"⟩ := by decide

example : extractChat (strL "Chat (from 'P'): 'U': M") = none := by decide

example : extractChat (strL "Chat (from 'P', q): 'U': M") =
    some ⟨strL "P", strL "U", strL "M"⟩ := by decide

/-- Lines 211–218 of `main.py` (`MainWindow.on_new_chat`): the platform
label, an if/elif chain of `str.startswith` tests applied to the platform
id, falling through to the unmodified id. -/
def platform_label (platform_id : List Char) : List Char :=
  if (strL "Xbox_").isPrefixOf platform_id then strL "Xbox"
  else if (strL "PSN_").isPrefixOf platform_id then strL "PSN"
  else if (strL "Steam_").isPrefixOf platform_id then strL "Steam"
  else platform_id

/-- The data model's `PlatformLabel` variant from the specification. -/
inductive PlatformLabel where
  | Xbox : PlatformLabel
  | PSN : PlatformLabel
  | Steam : PlatformLabel
  | Raw : List Char → PlatformLabel
deriving DecidableEq

/-- Classification into the `PlatformLabel` variant, by the same ordered
prefix tests the code performs. -/
def classifyPlatform (platform_id : List Char) : PlatformLabel :=
  if (strL "Xbox_").isPrefixOf platform_id then .Xbox
  else if (strL "PSN_").isPrefixOf platform_id then .PSN
  else if (strL "Steam_").isPrefixOf platform_id then .Steam
  else .Raw platform_id

/-- Display text of a `PlatformLabel`. -/
def labelText : PlatformLabel → List Char
  | .Xbox => strL "Xbox"
  | .PSN => strL "PSN"
  | .Steam => strL "Steam"
  | .Raw p => p

/-- Python `str.replace(pat, rep)` for a non-empty `pat`: scan left to
right; at a position where `pat` matches, emit `rep` and resume after the
matched text (the emitted replacement is not rescanned); otherwise emit the
character and advance.  The fuel argument (instantiated with the subject's
length, an upper bound on the number of scan steps) only makes the
recursion structural.  The program never calls replace with an empty
pattern, and this model treats that unused case as the identity. -/
def replaceFuel : Nat → List Char → List Char → List Char → List Char
  | _, [], _, _ => []
  | 0, s, _, _ => s
  | n + 1, c :: cs, pat, rep =>
    if pat ≠ [] ∧ pat.isPrefixOf (c :: cs) then
      rep ++ replaceFuel n ((c :: cs).drop pat.length) pat rep
    else
      c :: replaceFuel n cs pat rep

/-- Python `s.replace(pat, rep)` (non-empty `pat`). -/
def replaceList (s pat rep : List Char) : List Char :=
  replaceFuel s.length s pat rep

/-- The `{platform}` token of the message template. -/
def tok_platform : List Char := strL "{platform}"

/-- The `{user}` token of the message template. -/
def tok_user : List Char := strL "{user}"

/-- The `{message}` token of the message template. -/
def tok_message : List Char := strL "{message}"

/-- Lines 221–225 of `main.py`: the rendered content is three chained
`str.replace` calls, `{platform}` first, then `{user}`, then `{message}`,
each pass scanning the result of the previous one. -/
def render (template platform user message : List Char) : List Char :=
  replaceList (replaceList (replaceList template tok_platform platform)
      tok_user user)
    tok_message message

/-- The default `message_template` from `DEFAULT_CONFIG`. -/
def default_template : List Char := strL "🧟 {platform} — **{user}**: {message}"

/-- Number of positions of `s` at which `pat` begins (used to state that a
token occurs exactly once in a template). -/
def occCount : List Char → List Char → Nat
  | [], _ => 0
  | c :: cs, pat => (if pat.isPrefixOf (c :: cs) then 1 else 0) + occCount cs pat

/-- A template piece: a literal run of text or one occurrence of a
placeholder token.  A template whose braces all belong to token occurrences
is exactly a concatenation of such pieces with brace-free literals. -/
inductive TplPiece where
  | lit : List Char → TplPiece
  | platform : TplPiece
  | user : TplPiece
  | message : TplPiece
deriving DecidableEq

/-- The text a piece contributes to the template. -/
def pieceText : TplPiece → List Char
  | .lit s => s
  | .platform => tok_platform
  | .user => tok_user
  | .message => tok_message

/-- The template assembled from its pieces. -/
def tplText (pieces : List TplPiece) : List Char :=
  (pieces.map pieceText).join

/-- The value a piece contributes to the fully substituted output. -/
def pieceValue (p u m : List Char) : TplPiece → List Char
  | .lit s => s
  | .platform => p
  | .user => u
  | .message => m

/-- The fully substituted output of a template, every token occurrence
replaced by the corresponding record value. -/
def rendersTo (p u m : List Char) (pieces : List TplPiece) : List Char :=
  (pieces.map (pieceValue p u m)).join

/-- Effect of one replace pass on a piece: the targeted token becomes a
literal carrying its substituted value, everything else is untouched. -/
def substPiece (t : TplPiece) (v : List Char) (q : TplPiece) : TplPiece :=
  if q = t then .lit v else q

/-- Text through which one replace pass with a token pattern
`'{' :: cu :: _` scans without finding a match, whatever follows: either
brace-free text, or a different token — it starts `'{' :: cv` with
`cv ≠ cu` and continues brace-free, so the pattern fails at its second
character. -/
def KeepOk (cu : Char) (s : List Char) : Prop :=
  '{' ∉ s ∨ ∃ cv v, s = '{' :: cv :: v ∧ cv ≠ cu ∧ '{' ∉ cv :: v

/-- Python `str.strip()` with no argument: remove whitespace from both
edges. -/
def pyStrip (s : List Char) : List Char :=
  ((s.dropWhile Char.isWhitespace).reverse.dropWhile Char.isWhitespace).reverse

/-- Result of the underlying `requests.post` call: either a response with a
status code and body text, or a raised exception (timeouts included) with
its description `str(e)`. -/
inductive HttpResult where
  | ok : Nat → List Char → HttpResult
  | exc : List Char → HttpResult
deriving DecidableEq

/-- Lines 239–247 of `main.py` (`MainWindow.post_webhook`): status 200 or
204 yields `(True, '')`; any other status yields
`(False, f"HTTP {status} - {body}")`; any exception `e` from the call is
caught and yields `(False, str(e))`. -/
def post_webhook (webhook_url content : List Char) (response : HttpResult) :
    Bool × List Char :=
  match response with
  | .ok status text =>
    if status = 200 ∨ status = 204 then (true, [])
    else (false, strL "HTTP " ++ strL (Nat.repr status) ++ strL " - " ++ text)
  | .exc e => (false, e)

/-- The `DispatchOutcome` variant of the data model. -/
inductive DispatchOutcome where
  | delivered : DispatchOutcome
  | failed : List Char → DispatchOutcome
  | skipped : DispatchOutcome
deriving DecidableEq

/-- What one `on_new_chat` run produced: the outcome, and whether
`post_webhook` (a network call) was invoked at all. -/
structure DispatchReport where
  outcome : DispatchOutcome
  networkCalled : Bool
deriving DecidableEq

/-- Lines 211–237 of `main.py` (`MainWindow.on_new_chat`): classify the
platform, pick the template (the built-in default when the template field is
empty), render the content, strip the webhook field; when the stripped
webhook is non-empty call `post_webhook` and report success or failure,
otherwise skip without any network call.  The text of the webhook and
template fields and the result of the potential HTTP call are passed in as
the environment of the run. -/
def on_new_chat (webhookText template : List Char) (response : HttpResult)
    (platform_id user message : List Char) : DispatchReport :=
  let label := platform_label platform_id
  let t := if template = [] then default_template else template
  let content := render t label user message
  let webhook := pyStrip webhookText
  if webhook = [] then
    { outcome := .skipped, networkCalled := false }
  else
    let r := post_webhook webhook content response
    { outcome := if r.1 then .delivered else .failed r.2,
      networkCalled := true }

/-- The session-relevant state of `MainWindow`: the background worker if one
was created (`none` is the Idle state) and the emitted application log
lines. -/
structure AppState where
  tail_worker : Option (List Char)
  logs : List (List Char)
deriving DecidableEq

/-- Lines 191–202 of `main.py` (`MainWindow.start_watching`): when the file
path is empty or does not exist (existence of paths is the `path_exists`
environment), append one diagnostic and return without touching the worker;
otherwise create and start a `TailWorker` for the path and log the start. -/
def start_watching (path_exists : List Char → Bool) (filepath : List Char)
    (st : AppState) : AppState :=
  if filepath = [] ∨ path_exists filepath = false then
    { st with logs := st.logs ++ [strL "Ruta de archivo inválida o no existe."] }
  else
    { tail_worker := some filepath,
      logs := st.logs ++ [strL "Vigilancia iniciada."] }

example : render (strL "{platform} - {user}: {message}") (strL "Steam")
    (strL "Zed") (strL "hello world") = strL "Steam - Zed: hello world" := by decide

example : render (strL "{platform} {message}") (strL "{message}") (strL "u")
    (strL "m") = strL "m m" := by decide

example : render (strL "{mess{message}age}") (strL "x") (strL "y") [] =
    strL "{message}" := by decide

/-! ### Lemmas about the grammar matcher -/

lemma dropPrefix?_self_append (p s : List Char) :
    dropPrefix? p (p ++ s) = some s := by
  induction p with
  | nil => rfl
  | cons c cs ih => simp [dropPrefix?, ih]

lemma scanGroup_append (p t : List Char) (hp : ∀ c ∈ p, c ≠ '\'') :
    scanGroup (p ++ '\'' :: t) = some (p, t) := by
  induction p with
  | nil => simp [scanGroup]
  | cons c cs ih =>
    have hc : c ≠ '\'' := hp c (List.mem_cons_self c cs)
    have ih' := ih fun x hx => hp x (List.mem_cons_of_mem c hx)
    simp [scanGroup, hc, ih']

lemma scanGroup_no_quote (s : List Char) :
    ∀ {g r : List Char}, scanGroup s = some (g, r) → ∀ c ∈ g, c ≠ '\'' := by
  induction s with
  | nil => intro g r h; simp [scanGroup] at h
  | cons c cs ih =>
    intro g r h
    simp only [scanGroup] at h
    split at h
    case isTrue hc =>
      simp only [Option.some.injEq, Prod.mk.injEq] at h
      obtain ⟨hg, -⟩ := h
      subst hg
      simp
    case isFalse hc =>
      cases hsg : scanGroup cs with
      | none => rw [hsg] at h; simp at h
      | some gr =>
        obtain ⟨g', r'⟩ := gr
        rw [hsg] at h
        simp only [Option.some.injEq, Prod.mk.injEq] at h
        obtain ⟨hg, -⟩ := h
        subst hg
        intro x hx
        rcases List.mem_cons.mp hx with rfl | hx'
        · exact hc
        · exact ih hsg x hx'

lemma quotedCapture_sound {s g r : List Char}
    (h : quotedCapture s = some (g, r)) : g ≠ [] ∧ ∀ c ∈ g, c ≠ '\'' := by
  unfold quotedCapture at h
  split at h
  · next g' r' heq =>
    split at h
    · simp at h
    · next hg =>
      simp only [Option.some.injEq, Prod.mk.injEq] at h
      obtain ⟨rfl, -⟩ := h
      exact ⟨hg, scanGroup_no_quote s heq⟩
  · simp at h

lemma msgCapture_sound {s m : List Char} (h : msgCapture s = some m) :
    m ≠ [] := by
  simp only [msgCapture] at h
  split at h
  · next hcond =>
    obtain rfl := Option.some.inj h
    exact hcond.1
  · exact absurd h (by simp)

lemma afterQualifier_sound {s u m : List Char}
    (h : afterQualifier s = some (u, m)) :
    u ≠ [] ∧ (∀ c ∈ u, c ≠ '\'') ∧ m ≠ [] := by
  unfold afterQualifier at h
  split at h
  · simp at h
  · next s1 heq1 =>
    split at h
    · simp at h
    · next user s2 heq2 =>
      split at h
      · simp at h
      · next s3 heq3 =>
        split at h
        · simp at h
        · next msg heq4 =>
          simp only [Option.some.injEq, Prod.mk.injEq] at h
          obtain ⟨rfl, rfl⟩ := h
          obtain ⟨hu1, hu2⟩ := quotedCapture_sound heq2
          exact ⟨hu1, hu2, msgCapture_sound heq4⟩

lemma lazyScan_sound (s : List Char) :
    ∀ {u m : List Char}, lazyScan s = some (u, m) →
      u ≠ [] ∧ (∀ c ∈ u, c ≠ '\'') ∧ m ≠ [] := by
  induction s with
  | nil => intro u m h; simp [lazyScan] at h
  | cons c cs ih =>
    intro u m h
    simp only [lazyScan] at h
    split at h
    · cases haq : afterQualifier cs with
      | none =>
        simp only [haq] at h
        exact ih h
      | some r =>
        obtain ⟨u', m'⟩ := r
        simp only [haq, Option.some.injEq, Prod.mk.injEq] at h
        obtain ⟨rfl, rfl⟩ := h
        exact afterQualifier_sound haq
    · split at h
      · simp at h
      · exact ih h

lemma matchAt_sound {s pid u m : List Char}
    (h : matchAt s = some (pid, u, m)) :
    pid ≠ [] ∧ (∀ c ∈ pid, c ≠ '\'') ∧
    u ≠ [] ∧ (∀ c ∈ u, c ≠ '\'') ∧ m ≠ [] := by
  unfold matchAt at h
  split at h
  · simp at h
  · next s1 heq1 =>
    split at h
    · simp at h
    · next pid' s2 heq2 =>
      split at h
      · next c s3 =>
        split at h
        · split at h
          · simp at h
          · next u' m' heq3 =>
            simp only [Option.some.injEq, Prod.mk.injEq] at h
            obtain ⟨rfl, rfl, rfl⟩ := h
            obtain ⟨hp1, hp2⟩ := quotedCapture_sound heq2
            obtain ⟨h4, h5, h6⟩ := lazyScan_sound s3 heq3
            exact ⟨hp1, hp2, h4, h5, h6⟩
        · simp at h
      · simp at h

lemma searchChat_sound (s : List Char) :
    ∀ {pid u m : List Char}, searchChat s = some (pid, u, m) →
      pid ≠ [] ∧ (∀ c ∈ pid, c ≠ '\'') ∧
      u ≠ [] ∧ (∀ c ∈ u, c ≠ '\'') ∧ m ≠ [] := by
  induction s with
  | nil => intro pid u m h; simp [searchChat] at h
  | cons c cs ih =>
    intro pid u m h
    simp only [searchChat] at h
    cases hm : matchAt (c :: cs) with
    | none =>
      simp only [hm] at h
      exact ih h
    | some r =>
      obtain ⟨p', u', m'⟩ := r
      simp only [hm, Option.some.injEq, Prod.mk.injEq] at h
      obtain ⟨rfl, rfl, rfl⟩ := h
      exact matchAt_sound hm

lemma matchAt_no_comma (p rest : List Char) (hne : p ≠ [])
    (hq : ∀ c ∈ p, c ≠ '\'') :
    matchAt (strL "Chat (from '" ++ (p ++ '\'' :: ')' :: rest)) = none := by
  have hqc : quotedCapture (p ++ '\'' :: ')' :: rest) =
      some (p, ')' :: rest) := by
    unfold quotedCapture
    rw [scanGroup_append p (')' :: rest) hq]
    simp [hne]
  unfold matchAt
  rw [dropPrefix?_self_append]
  simp only [hqc]
  have hcc : ¬((')' : Char) = ',') := by decide
  rw [if_neg hcc]

/-! ### Claims about the Chat Extractor -/

/-- C1 counterexample: the grammar does NOT match a chat line without the
comma qualifier — the non-capturing group `(?:,.*?)` of `CHAT_LINE_RE`
carries no `?` quantifier, so the comma after the platform id is mandatory.
On the claim's own instance `Chat (from 'P'): 'U': M` the search produces no
match, hence no ChatEvent at all. -/
theorem c1_counterexample :
    extractChat (strL "Chat (from 'P'): 'U': M") = none := by decide

/-- C1 (amended): the qualifier `, ...` after the platform id is required,
not optional.  A match attempt on any text of the shape
`Chat (from '<platformId>')...` — closing quote directly followed by `)`
instead of a comma — fails, whatever follows; and with the comma qualifier
present, `Chat (from 'P', q): 'U': M` yields ChatEvent P/U/M. -/
theorem c1_qualifier_required :
    (∀ platformId rest : List Char, platformId ≠ [] →
        (∀ c ∈ platformId, c ≠ '\'') →
        matchAt (strL "Chat (from '" ++ platformId ++ strL "')" ++ rest) =
          none) ∧
    extractChat (strL "Chat (from 'P', q): 'U': M") =
      some ⟨strL "P", strL "U", strL "M"⟩ := by
  constructor
  · intro p rest hne hq
    have hsplit : strL "Chat (from '" ++ p ++ strL "')" ++ rest =
        strL "Chat (from '" ++ (p ++ '\'' :: ')' :: rest) := by
      rw [List.append_assoc, List.append_assoc]
      rfl
    rw [hsplit]
    exact matchAt_no_comma p rest hne hq
  · decide

/-- C1 witness: the general half of `c1_qualifier_required` applied to the
claim's concrete instance (platform id `P`, remainder `: 'U': M`). -/
theorem c1_witness :
    matchAt (strL "Chat (from '" ++ strL "P" ++ strL "')" ++ strL ": 'U': M") =
      none :=
  c1_qualifier_required.1 (strL "P") (strL ": 'U': M") (by decide) (by decide)

/-- C6: Scenario A — the line `Chat (from 'Steam_123', Entity): 'Zed': hello
world` extracts exactly ChatEvent Steam_123/Zed/"hello world" (the message
has its surrounding quote/space characters stripped; here there are none),
and the classifier maps `Steam_123` to the Steam label. -/
theorem c6_scenario_a :
    extractChat (strL "Chat (from 'Steam_123', Entity): 'Zed': hello world") =
      some ⟨strL "Steam_123", strL "Zed", strL "hello world"⟩ ∧
    classifyPlatform (strL "Steam_123") = PlatformLabel.Steam ∧
    platform_label (strL "Steam_123") = strL "Steam" := by decide

/-- C10: every ChatEvent the extractor produces has a non-empty,
quote-free platform id (group `[^']+`), a non-empty, quote-free user (group
`[^']+`), and a message that was non-empty before its edges were stripped
(group `.+`); in particular the user field of a produced event can never
contain an apostrophe. -/
theorem c10_event_invariants (line : List Char) (ev : ChatEvent)
    (h : extractChat line = some ev) :
    ev.platformId ≠ [] ∧ '\'' ∉ ev.platformId ∧
    ev.user ≠ [] ∧ '\'' ∉ ev.user ∧
    ∃ raw, searchChat line = some (ev.platformId, ev.user, raw) ∧
      raw ≠ [] ∧ ev.message = stripEdges raw := by
  unfold extractChat at h
  cases hs : searchChat line with
  | none => simp [hs] at h
  | some r =>
    obtain ⟨pid, u, m⟩ := r
    simp only [hs, Option.some.injEq] at h
    subst h
    obtain ⟨h1, h2, h3, h4, h5⟩ := searchChat_sound line hs
    refine ⟨h1, fun hmem => h2 _ hmem rfl, h3, fun hmem => h4 _ hmem rfl,
      m, ?_, h5, rfl⟩
    rfl

/-- C10 witness: the invariants instantiated on the concrete line
`Chat (from 'X', e): 'N': hi`. -/
theorem c10_witness :
    (ChatEvent.mk (strL "X") (strL "N") (strL "hi")).platformId ≠ [] ∧
    '\'' ∉ (ChatEvent.mk (strL "X") (strL "N") (strL "hi")).platformId ∧
    (ChatEvent.mk (strL "X") (strL "N") (strL "hi")).user ≠ [] ∧
    '\'' ∉ (ChatEvent.mk (strL "X") (strL "N") (strL "hi")).user ∧
    ∃ raw, searchChat (strL "Chat (from 'X', e): 'N': hi") =
        some ((ChatEvent.mk (strL "X") (strL "N") (strL "hi")).platformId,
          (ChatEvent.mk (strL "X") (strL "N") (strL "hi")).user, raw) ∧
      raw ≠ [] ∧
      (ChatEvent.mk (strL "X") (strL "N") (strL "hi")).message =
        stripEdges raw :=
  c10_event_invariants (strL "Chat (from 'X', e): 'N': hi")
    (ChatEvent.mk (strL "X") (strL "N") (strL "hi")) (by decide)

/-! ### Claims about the dispatcher and session -/

lemma pyStrip_blank (s : List Char) (h : ∀ c ∈ s, c.isWhitespace) :
    pyStrip s = [] := by
  unfold pyStrip
  have h1 : s.dropWhile Char.isWhitespace = [] :=
    List.dropWhile_eq_nil_iff.mpr h
  rw [h1]
  rfl

/-- C3: outcome classification of `post_webhook` — status 200 or 204 yields
the success pair `(True, '')`; any other status yields failure with a reason
that contains the decimal status code and the response body; a raised
transport error yields failure with the error description as the reason. -/
theorem c3_dispatch_outcomes (webhook_url content text e : List Char)
    (status : Nat) :
    ((status = 200 ∨ status = 204) →
      post_webhook webhook_url content (.ok status text) = (true, [])) ∧
    ((status ≠ 200 ∧ status ≠ 204) →
      (post_webhook webhook_url content (.ok status text)).1 = false ∧
      strL (Nat.repr status) <:+:
        (post_webhook webhook_url content (.ok status text)).2 ∧
      text <:+: (post_webhook webhook_url content (.ok status text)).2) ∧
    (post_webhook webhook_url content (.exc e) = (false, e) ∧
      e <:+: (post_webhook webhook_url content (.exc e)).2) := by
  refine ⟨?_, ?_, ?_, ?_⟩
  · intro hs
    simp only [post_webhook]
    rw [if_pos hs]
  · intro hne
    have hcond : ¬(status = 200 ∨ status = 204) := by
      rintro (h | h)
      · exact hne.1 h
      · exact hne.2 h
    refine ⟨?_, ?_, ?_⟩
    · simp only [post_webhook]
      rw [if_neg hcond]
    · simp only [post_webhook]
      rw [if_neg hcond]
      exact ⟨strL "HTTP ", strL " - " ++ text, by simp⟩
    · simp only [post_webhook]
      rw [if_neg hcond]
      exact ⟨strL "HTTP " ++ strL (Nat.repr status) ++ strL " - ", [], by simp⟩
  · rfl
  · exact ⟨[], [], by simp [post_webhook]⟩

/-- C3 witness: the three outcome classes at concrete inputs — status 200
delivered, status 404 failed with the code and the body in the reason, and
an exception failed with its description. -/
theorem c3_witness :
    post_webhook (strL "u") (strL "c") (HttpResult.ok 200 (strL "ok")) =
      (true, []) ∧
    ((post_webhook (strL "u") (strL "c") (HttpResult.ok 404 (strL "nf"))).1 =
        false ∧
      strL (Nat.repr 404) <:+:
        (post_webhook (strL "u") (strL "c") (HttpResult.ok 404 (strL "nf"))).2 ∧
      strL "nf" <:+:
        (post_webhook (strL "u") (strL "c")
            (HttpResult.ok 404 (strL "nf"))).2) ∧
    post_webhook (strL "u") (strL "c") (HttpResult.exc (strL "boom")) =
      (false, strL "boom") :=
  ⟨(c3_dispatch_outcomes (strL "u") (strL "c") (strL "ok") (strL "boom")
      200).1 (Or.inl rfl),
   (c3_dispatch_outcomes (strL "u") (strL "c") (strL "nf") (strL "boom")
      404).2.1 (by decide),
   (c3_dispatch_outcomes (strL "u") (strL "c") (strL "nf") (strL "boom")
      404).2.2.1⟩

/-- C9: `post_webhook` is total over response outcomes and exceptions — a
success result always carries an empty reason, and every exception from the
underlying call (timeouts included) is caught and turned into the failure
pair `(False, str(e))`, so nothing propagates to the caller. -/
theorem c9_no_exception_propagation (webhook_url content : List Char)
    (response : HttpResult) :
    ((post_webhook webhook_url content response).1 = true →
      (post_webhook webhook_url content response).2 = []) ∧
    (∀ e, response = HttpResult.exc e →
      post_webhook webhook_url content response = (false, e)) := by
  constructor
  · intro h
    cases response with
    | ok status text =>
      by_cases hs : status = 200 ∨ status = 204
      · simp only [post_webhook]
        rw [if_pos hs]
      · simp only [post_webhook] at h
        rw [if_neg hs] at h
        simp at h
    | exc e => simp [post_webhook] at h
  · rintro e rfl
    rfl

/-- C9 witness: a timeout exception at a concrete input is converted to the
failure pair. -/
theorem c9_witness :
    post_webhook (strL "u") (strL "c") (HttpResult.exc (strL "timed out")) =
      (false, strL "timed out") :=
  (c9_no_exception_propagation (strL "u") (strL "c")
      (HttpResult.exc (strL "timed out"))).2 _ rfl

/-- C4: when the webhook field is blank (empty or whitespace-only, so that
Python's `strip()` leaves the empty string), `on_new_chat` reports Skipped
and performs no network call, whatever the response environment would have
been — the blank check precedes the dispatcher call. -/
theorem c4_blank_webhook_skips (webhookText template : List Char)
    (response : HttpResult) (platform_id user message : List Char)
    (h : ∀ c ∈ webhookText, c.isWhitespace) :
    on_new_chat webhookText template response platform_id user message =
      { outcome := .skipped, networkCalled := false } := by
  unfold on_new_chat
  rw [pyStrip_blank webhookText h]
  simp

/-- C4 witness: a whitespace-only webhook field with a valid chat event is
skipped with no network call. -/
theorem c4_witness :
    on_new_chat (strL "  ") (strL "t") (HttpResult.exc (strL "x"))
        (strL "Steam_1") (strL "u") (strL "m") =
      { outcome := .skipped, networkCalled := false } :=
  c4_blank_webhook_skips _ _ _ _ _ _ (by decide)

/-- C5: the classifier is a total pure function of the platform id — the
string label the code computes is the display text of the `PlatformLabel`
classification; the prefix rules are tested in the order Xbox_, PSN_,
Steam_ (each case conditional on the earlier tests failing, matching the
if/elif chain), matching is case-sensitive prefix matching, and when no
prefix applies the result is Raw with the identifier unmodified. -/
theorem c5_classifier_total (platform_id : List Char) :
    platform_label platform_id = labelText (classifyPlatform platform_id) ∧
    ((strL "Xbox_").isPrefixOf platform_id = true →
      classifyPlatform platform_id = .Xbox) ∧
    ((strL "Xbox_").isPrefixOf platform_id = false →
      (strL "PSN_").isPrefixOf platform_id = true →
      classifyPlatform platform_id = .PSN) ∧
    ((strL "Xbox_").isPrefixOf platform_id = false →
      (strL "PSN_").isPrefixOf platform_id = false →
      (strL "Steam_").isPrefixOf platform_id = true →
      classifyPlatform platform_id = .Steam) ∧
    ((strL "Xbox_").isPrefixOf platform_id = false →
      (strL "PSN_").isPrefixOf platform_id = false →
      (strL "Steam_").isPrefixOf platform_id = false →
      classifyPlatform platform_id = .Raw platform_id ∧
      platform_label platform_id = platform_id) := by
  refine ⟨?_, ?_, ?_, ?_, ?_⟩
  · unfold platform_label classifyPlatform
    split_ifs <;> rfl
  · intro h1
    simp [classifyPlatform, h1]
  · intro h1 h2
    simp [classifyPlatform, h1, h2]
  · intro h1 h2 h3
    simp [classifyPlatform, h1, h2, h3]
  · intro h1 h2 h3
    constructor
    · simp [classifyPlatform, h1, h2, h3]
    · simp [platform_label, h1, h2, h3]

/-- C5 witness: the classification at the concrete id `PSN_1` — the PSN_
rule fires after the Xbox_ test fails, and label text agrees with the code's
string label. -/
theorem c5_witness :
    classifyPlatform (strL "PSN_1") = PlatformLabel.PSN ∧
    platform_label (strL "PSN_1") = labelText (classifyPlatform (strL "PSN_1")) :=
  ⟨(c5_classifier_total (strL "PSN_1")).2.2.1 (by decide) (by decide),
   (c5_classifier_total (strL "PSN_1")).1⟩

/-- C7: a start request with an empty file path, or a path that does not
exist, is rejected — exactly one diagnostic line is appended, the worker
field is untouched (so an Idle session stays Idle), and no worker is
created or started. -/
theorem c7_invalid_path_rejected (path_exists : List Char → Bool)
    (filepath : List Char) (st : AppState)
    (h : filepath = [] ∨ path_exists filepath = false) :
    start_watching path_exists filepath st =
      { tail_worker := st.tail_worker,
        logs := st.logs ++ [strL "Ruta de archivo inválida o no existe."] } := by
  unfold start_watching
  rw [if_pos h]

/-- C7 witness: starting on a missing path from the Idle state leaves the
state Idle with the single diagnostic. -/
theorem c7_witness :
    start_watching (fun _ => false) (strL "missing.txt")
        { tail_worker := none, logs := [] } =
      { tail_worker := none,
        logs := [strL "Ruta de archivo inválida o no existe."] } := by
  have h := c7_invalid_path_rejected (fun _ => false) (strL "missing.txt")
    { tail_worker := none, logs := [] } (Or.inr rfl)
  simpa using h

/-! ### Lemmas about chained replacement -/

lemma replaceFuel_zero (s pat rep : List Char) :
    replaceFuel 0 s pat rep = s := by
  cases s <;> rfl

lemma not_infix_of_lbrace_notMem {s : List Char} (ps : List Char)
    (h : '{' ∉ s) : ¬ ('{' :: ps) <:+: s :=
  fun hi => h (hi.sublist.subset (List.mem_cons_self _ _))

lemma replaceFuel_not_infix (pat rep : List Char) :
    ∀ (n : Nat) (s : List Char), ¬ pat <:+: s →
      replaceFuel n s pat rep = s := by
  intro n
  induction n with
  | zero => intro s _; exact replaceFuel_zero s pat rep
  | succ n ih =>
    intro s hs
    cases s with
    | nil => rfl
    | cons c cs =>
      rw [replaceFuel, if_neg, ih cs]
      · intro hi
        obtain ⟨x, y, hxy⟩ := hi
        exact hs ⟨c :: x, y, by simp [hxy]⟩
      · rintro ⟨-, hpre⟩
        exact hs (List.isPrefixOf_iff_prefix.mp hpre).isInfix

lemma replaceList_not_infix {s pat : List Char} (rep : List Char)
    (h : ¬ pat <:+: s) : replaceList s pat rep = s :=
  replaceFuel_not_infix pat rep s.length s h

lemma replaceFuel_mid (ps rep : List Char) :
    ∀ (a : List Char) (n : Nat) (b : List Char), a.length < n →
      '{' ∉ a → '{' ∉ b →
      replaceFuel n (a ++ ('{' :: ps) ++ b) ('{' :: ps) rep =
        a ++ rep ++ b := by
  intro a
  induction a with
  | nil =>
    intro n b hn _ hb
    cases n with
    | zero => omega
    | succ n =>
      show replaceFuel (n + 1) ('{' :: (ps ++ b)) ('{' :: ps) rep = rep ++ b
      rw [replaceFuel, if_pos]
      · rw [show ('{' :: ps).length = ps.length + 1 from rfl,
          List.drop_succ_cons, List.drop_left,
          replaceFuel_not_infix _ _ _ b (not_infix_of_lbrace_notMem ps hb)]
      · exact ⟨by simp, List.isPrefixOf_iff_prefix.mpr ⟨b, by simp⟩⟩
  | cons c a' ih =>
    intro n b hn ha hb
    cases n with
    | zero => omega
    | succ n =>
      have hc : ('{' : Char) ≠ c := fun h => ha (h ▸ List.mem_cons_self c a')
      show replaceFuel (n + 1) (c :: (a' ++ ('{' :: ps) ++ b)) ('{' :: ps) rep =
        c :: (a' ++ rep ++ b)
      rw [replaceFuel, if_neg]
      · rw [ih n b (by simpa using hn)
          (fun hm => ha (List.mem_cons_of_mem c hm)) hb]
      · rintro ⟨-, hpre⟩
        exact hc (List.cons_prefix_cons.mp
          (List.isPrefixOf_iff_prefix.mp hpre)).1

lemma replaceList_mid (ps rep a b : List Char) (ha : '{' ∉ a)
    (hb : '{' ∉ b) :
    replaceList (a ++ ('{' :: ps) ++ b) ('{' :: ps) rep = a ++ rep ++ b := by
  apply replaceFuel_mid ps rep a _ b _ ha hb
  simp [List.length_append]

lemma eq_of_lbrace_split :
    ∀ (x a u v : List Char), '{' ∉ x → '{' ∉ a →
      x ++ '{' :: u = a ++ '{' :: v → x = a ∧ u = v := by
  intro x
  induction x with
  | nil =>
    intro a u v _ ha heq
    cases a with
    | nil => simpa using heq
    | cons c a' =>
      injection heq with h1 _
      exact absurd (h1 ▸ List.mem_cons_self c a') ha
  | cons c x' ih =>
    intro a u v hx ha heq
    cases a with
    | nil =>
      injection heq with h1 _
      exact absurd (h1 ▸ List.mem_cons_self c x') hx
    | cons d a' =>
      injection heq with h1 h2
      subst h1
      obtain ⟨hxa, huv⟩ := ih a' u v
        (fun hm => hx (List.mem_cons_of_mem c hm))
        (fun hm => ha (List.mem_cons_of_mem c hm)) h2
      exact ⟨by rw [hxa], huv⟩

lemma lbrace_not_infix_other {a b u v : List Char} {cu cv : Char}
    (ha : '{' ∉ a) (hb : '{' ∉ b) (hu : '{' ∉ cu :: u)
    (hv : '{' ∉ cv :: v) (hne : cu ≠ cv) :
    ¬ ('{' :: cu :: u) <:+: (a ++ ('{' :: cv :: v) ++ b) := by
  rintro ⟨x, y, hxy⟩
  rw [List.append_assoc, List.append_assoc] at hxy
  have hcu : ¬(cu = '{') := fun h => hu (by rw [← h]; exact List.mem_cons_self cu u)
  have hcv : ¬(cv = '{') := fun h => hv (by rw [← h]; exact List.mem_cons_self cv v)
  have hu' : '{' ∉ u := fun hm => hu (List.mem_cons_of_mem cu hm)
  have hv' : '{' ∉ v := fun hm => hv (List.mem_cons_of_mem cv hm)
  have hcx : '{' ∉ x := by
    have hcount := congrArg (List.count '{') hxy
    simp [List.count_append, List.count_cons, List.count_eq_zero.mpr ha,
      List.count_eq_zero.mpr hb, List.count_eq_zero.mpr hu',
      List.count_eq_zero.mpr hv', hcu, hcv] at hcount
    rw [← List.count_eq_zero]
    omega
  obtain ⟨-, huv⟩ := eq_of_lbrace_split x a ((cu :: u) ++ y) ((cv :: v) ++ b)
    hcx ha hxy
  injection huv with h1 _
  exact hne h1

lemma replaceList_other_token {a b u v : List Char} {cu cv : Char}
    (rep : List Char) (ha : '{' ∉ a) (hb : '{' ∉ b) (hu : '{' ∉ cu :: u)
    (hv : '{' ∉ cv :: v) (hne : cu ≠ cv) :
    replaceList (a ++ ('{' :: cv :: v) ++ b) ('{' :: cu :: u) rep =
      a ++ ('{' :: cv :: v) ++ b :=
  replaceList_not_infix rep (lbrace_not_infix_other ha hb hu hv hne)

lemma replaceList_no_lbrace {s : List Char} (hs : '{' ∉ s)
    (ps rep : List Char) : replaceList s ('{' :: ps) rep = s :=
  replaceList_not_infix rep (not_infix_of_lbrace_notMem ps hs)

/-! ### Claims about the Template Renderer -/

/-- C2 counterexample: rendering is NOT a single pass with fixed source
values — the code chains three `str.replace` calls, each rescanning the
result of the previous one, so on the claim's own example the `{message}`
token text introduced by the platform value is replaced again by the later
message pass and the output is `m m`, not the claimed `{message} m`. -/
theorem c2_counterexample :
    render (strL "{platform} {message}") (strL "{message}") (strL "u")
        (strL "m") ≠ strL "{message} m" := by decide

/-- C2 (amended): rendering is a chained replacement — `{platform}` first,
then `{user}`, then `{message}`, each pass scanning the result of the
previous one with a fixed value for that pass — so token text introduced by
a substituted value IS replaced by a subsequent pass: rendering the
template `{platform}` with platform value `{message}` yields exactly the
message value, for every user and message value; and on the claim's example
the output is `m m`. -/
theorem c2_substitution_cascades :
    (∀ u m : List Char, render tok_platform (strL "{message}") u m = m) ∧
    render (strL "{platform} {message}") (strL "{message}") (strL "u")
        (strL "m") = strL "m m" := by
  constructor
  · intro u m
    show replaceList (replaceList (replaceList tok_platform tok_platform
        (strL "{message}")) tok_user u) tok_message m = m
    have r1 : replaceList tok_platform tok_platform (strL "{message}") =
        strL "{message}" := by decide
    rw [r1]
    have r2 : replaceList (strL "{message}") tok_user u =
        strL "{message}" :=
      @replaceList_other_token [] [] (strL "ser\x7d") (strL "essage\x7d") 'u' 'm'
        u (by simp) (by simp) (by decide) (by decide) (by decide)
    rw [r2]
    have r3 : replaceList (strL "{message}") tok_message m = m := by
      have h := replaceList_mid (strL "message\x7d") m [] [] (by simp) (by simp)
      simpa using h
    rw [r3]
  · decide

/-- C8 counterexample: determinism aside, the claim's no-leftover-token
guarantee fails — in the template `{mess{message}age}` the token
`{message}` occurs exactly once, the field values `x`, `y`, `""` contain no
token-like substring, yet the rendered output is exactly `{message}`: the
empty substitution joined the surrounding template text into a new
occurrence of the token, which therefore survives into the output. -/
theorem c8_counterexample :
    occCount (strL "{mess{message}age}") tok_message = 1 ∧
    occCount (strL "{mess{message}age}") tok_platform = 0 ∧
    occCount (strL "{mess{message}age}") tok_user = 0 ∧
    (¬ tok_platform <:+: strL "x") ∧ (¬ tok_user <:+: strL "x") ∧
    (¬ tok_message <:+: strL "x") ∧
    (¬ tok_platform <:+: strL "y") ∧ (¬ tok_user <:+: strL "y") ∧
    (¬ tok_message <:+: strL "y") ∧
    render (strL "{mess{message}age}") (strL "x") (strL "y") [] =
      strL "{message}" ∧
    tok_message <:+:
      render (strL "{mess{message}age}") (strL "x") (strL "y") [] := by
  refine ⟨by decide, by decide, by decide, by decide, by decide, by decide,
    by decide, by decide, by decide, by decide, by decide⟩


lemma scan_skip (c0 : Char) (ps rep : List Char) :
    ∀ (s : List Char), c0 ∉ s → ∀ (k : Nat) (X : List Char),
      replaceFuel (s.length + k) (s ++ X) (c0 :: ps) rep =
        s ++ replaceFuel k X (c0 :: ps) rep := by
  intro s
  induction s with
  | nil => intro _ k X; simp
  | cons c s' ih =>
    intro hs k X
    have hc : c0 ≠ c := fun h => hs (h ▸ List.mem_cons_self c s')
    have hs' : c0 ∉ s' := fun hm => hs (List.mem_cons_of_mem c hm)
    rw [List.cons_append,
      show (c :: s').length + k = s'.length + k + 1 from by
        rw [List.length_cons]; omega,
      replaceFuel, if_neg]
    · exact congrArg (List.cons c) (ih hs' k X)
    · rintro ⟨-, hpre⟩
      exact hc (List.cons_prefix_cons.mp
        (List.isPrefixOf_iff_prefix.mp hpre)).1

lemma scan_hit (pat rep : List Char) (hpat : pat ≠ []) :
    ∀ (k : Nat) (X : List Char),
      replaceFuel (k + 1) (pat ++ X) pat rep =
        rep ++ replaceFuel k X pat rep := by
  intro k X
  cases pat with
  | nil => exact absurd rfl hpat
  | cons c ps =>
    rw [List.cons_append, replaceFuel, if_pos]
    · congr 1
      rw [← List.cons_append, List.drop_left]
    · exact ⟨by simp, List.isPrefixOf_iff_prefix.mpr ⟨X, by
        rw [List.cons_append]⟩⟩

lemma scan_other (cu cv : Char) (ut v rep : List Char) (hne : cv ≠ cu)
    (hv : '{' ∉ cv :: v) :
    ∀ (k : Nat) (X : List Char),
      replaceFuel (('{' :: cv :: v).length + k) (('{' :: cv :: v) ++ X)
          ('{' :: cu :: ut) rep =
        ('{' :: cv :: v) ++ replaceFuel k X ('{' :: cu :: ut) rep := by
  intro k X
  rw [List.cons_append,
    show ('{' :: cv :: v).length + k = (cv :: v).length + k + 1 from by
      rw [List.length_cons]; omega,
    replaceFuel, if_neg]
  · exact congrArg (List.cons '{')
      (scan_skip '{' (cu :: ut) rep (cv :: v) hv k X)
  · rintro ⟨-, hpre⟩
    have h1 := List.cons_prefix_cons.mp (List.isPrefixOf_iff_prefix.mp hpre)
    rw [List.cons_append] at h1
    exact hne (List.cons_prefix_cons.mp h1.2).1.symm

lemma render_pass (cu : Char) (ut rep : List Char) (f : TplPiece → TplPiece) :
    ∀ (pieces : List TplPiece),
      (∀ q ∈ pieces,
        (pieceText q = '{' :: cu :: ut ∧ pieceText (f q) = rep) ∨
        (f q = q ∧ KeepOk cu (pieceText q))) →
      ∀ n, (tplText pieces).length ≤ n →
        replaceFuel n (tplText pieces) ('{' :: cu :: ut) rep =
          tplText (pieces.map f) := by
  intro pieces
  induction pieces with
  | nil =>
    intro _ n _
    show replaceFuel n [] ('{' :: cu :: ut) rep = ([] : List Char)
    cases n <;> rfl
  | cons q rest ih =>
    intro hmem n hn
    have hq0 := hmem q (List.mem_cons_self q rest)
    have hrest := fun r hr => hmem r (List.mem_cons_of_mem q hr)
    have htext : tplText (q :: rest) = pieceText q ++ tplText rest := by
      simp [tplText]
    have htext2 : tplText ((q :: rest).map f) =
        pieceText (f q) ++ tplText (rest.map f) := by
      simp [tplText]
    rw [htext] at hn ⊢
    rw [htext2]
    rw [List.length_append] at hn
    rcases hq0 with ⟨hpat, hfq⟩ | ⟨hfix, hkeep⟩
    · rw [hpat, hfq]
      rw [hpat, List.length_cons, List.length_cons] at hn
      obtain ⟨n', rfl⟩ : ∃ n', n = n' + 1 := ⟨n - 1, by omega⟩
      rw [scan_hit ('{' :: cu :: ut) rep (by simp) n' (tplText rest)]
      rw [ih hrest n' (by omega)]
    · rw [hfix]
      rcases hkeep with hfree | ⟨cv, v, hsv, hne, hv⟩
      · obtain ⟨k, rfl⟩ : ∃ k, n = (pieceText q).length + k :=
          ⟨n - (pieceText q).length, by omega⟩
        rw [scan_skip '{' (cu :: ut) rep (pieceText q) hfree k (tplText rest)]
        rw [ih hrest k (by omega)]
      · rw [hsv] at hn ⊢
        rw [List.length_cons, List.length_cons] at hn
        obtain ⟨k, rfl⟩ : ∃ k, n = ('{' :: cv :: v).length + k :=
          ⟨n - ('{' :: cv :: v).length, by rw [List.length_cons, List.length_cons]; omega⟩
        rw [scan_other cu cv ut v rep hne hv k (tplText rest)]
        rw [ih hrest k (by rw [List.length_cons, List.length_cons] at *; omega)]

/-- C8 (amended): rendering is deterministic (a pure function of template
and record), and for every template assembled from brace-free literal
segments and token occurrences — each token occurring any number of times,
which covers a token occurring exactly once as well as multi-token
templates such as `{platform} - {user}: {message}` and the default
template — with brace-free field values, every token occurrence is
replaced by its corresponding value, the output contains no brace and
hence no token (token text included) survives into it, and rendering any
brace-free string (in particular the output) is the identity, which gives
idempotence.  The brace-free side conditions are exactly what the
counterexample forces: with a stray brace in the template a once-occurring
token can be reconstituted in the output. -/
theorem c8_template_rendering (pieces : List TplPiece) (p u m : List Char)
    (hlit : ∀ s, TplPiece.lit s ∈ pieces → '{' ∉ s)
    (hp : '{' ∉ p) (hu : '{' ∉ u) (hm : '{' ∉ m) :
    (∀ t : List Char, render t p u m = render t p u m) ∧
    render (tplText pieces) p u m = rendersTo p u m pieces ∧
    '{' ∉ rendersTo p u m pieces ∧
    (¬ tok_platform <:+: rendersTo p u m pieces ∧
     ¬ tok_user <:+: rendersTo p u m pieces ∧
     ¬ tok_message <:+: rendersTo p u m pieces) ∧
    (∀ s, '{' ∉ s → render s p u m = s) := by
  have h1 : replaceList (tplText pieces) tok_platform p =
      tplText (pieces.map (substPiece TplPiece.platform p)) := by
    show replaceFuel (tplText pieces).length (tplText pieces)
      ('{' :: 'p' :: strL "latform\x7d") p = _
    apply render_pass
    · intro q hqmem
      cases q with
      | lit s =>
        exact Or.inr ⟨by simp [substPiece], Or.inl (hlit s hqmem)⟩
      | platform => exact Or.inl ⟨rfl, by simp [substPiece, pieceText]⟩
      | user =>
        exact Or.inr ⟨by simp [substPiece],
          Or.inr ⟨'u', strL "ser\x7d", rfl, by decide, by decide⟩⟩
      | message =>
        exact Or.inr ⟨by simp [substPiece],
          Or.inr ⟨'m', strL "essage\x7d", rfl, by decide, by decide⟩⟩
    · exact le_rfl
  have hlit1 : ∀ s,
      TplPiece.lit s ∈ pieces.map (substPiece TplPiece.platform p) →
      '{' ∉ s := by
    intro s hsmem
    obtain ⟨q, hq, heq⟩ := List.mem_map.mp hsmem
    cases q with
    | lit s' =>
      simp [substPiece] at heq
      exact heq ▸ hlit s' hq
    | platform =>
      simp [substPiece] at heq
      exact heq ▸ hp
    | user => simp [substPiece] at heq
    | message => simp [substPiece] at heq
  have h2 : replaceList
      (tplText (pieces.map (substPiece TplPiece.platform p))) tok_user u =
      tplText ((pieces.map (substPiece TplPiece.platform p)).map
        (substPiece TplPiece.user u)) := by
    show replaceFuel _ _ ('{' :: 'u' :: strL "ser\x7d") u = _
    apply render_pass
    · intro q hqmem
      cases q with
      | lit s =>
        exact Or.inr ⟨by simp [substPiece], Or.inl (hlit1 s hqmem)⟩
      | platform =>
        exact Or.inr ⟨by simp [substPiece],
          Or.inr ⟨'p', strL "latform\x7d", rfl, by decide, by decide⟩⟩
      | user => exact Or.inl ⟨rfl, by simp [substPiece, pieceText]⟩
      | message =>
        exact Or.inr ⟨by simp [substPiece],
          Or.inr ⟨'m', strL "essage\x7d", rfl, by decide, by decide⟩⟩
    · exact le_rfl
  have hlit2 : ∀ s,
      TplPiece.lit s ∈ (pieces.map (substPiece TplPiece.platform p)).map
        (substPiece TplPiece.user u) → '{' ∉ s := by
    intro s hsmem
    obtain ⟨q, hq, heq⟩ := List.mem_map.mp hsmem
    cases q with
    | lit s' =>
      simp [substPiece] at heq
      exact heq ▸ hlit1 s' hq
    | platform => simp [substPiece] at heq
    | user =>
      simp [substPiece] at heq
      exact heq ▸ hu
    | message => simp [substPiece] at heq
  have h3 : replaceList
      (tplText ((pieces.map (substPiece TplPiece.platform p)).map
        (substPiece TplPiece.user u))) tok_message m =
      tplText (((pieces.map (substPiece TplPiece.platform p)).map
        (substPiece TplPiece.user u)).map (substPiece TplPiece.message m)) := by
    show replaceFuel _ _ ('{' :: 'm' :: strL "essage\x7d") m = _
    apply render_pass
    · intro q hqmem
      cases q with
      | lit s =>
        exact Or.inr ⟨by simp [substPiece], Or.inl (hlit2 s hqmem)⟩
      | platform =>
        exact Or.inr ⟨by simp [substPiece],
          Or.inr ⟨'p', strL "latform\x7d", rfl, by decide, by decide⟩⟩
      | user =>
        exact Or.inr ⟨by simp [substPiece],
          Or.inr ⟨'u', strL "ser\x7d", rfl, by decide, by decide⟩⟩
      | message => exact Or.inl ⟨rfl, by simp [substPiece, pieceText]⟩
    · exact le_rfl
  have hfinal : ∀ qs : List TplPiece,
      tplText (((qs.map (substPiece TplPiece.platform p)).map
        (substPiece TplPiece.user u)).map (substPiece TplPiece.message m)) =
      rendersTo p u m qs := by
    intro qs
    induction qs with
    | nil => rfl
    | cons q rest ihq =>
      simp only [List.map_cons, tplText, rendersTo, List.join,
        List.flatten_cons] at ihq ⊢
      rw [ihq]
      cases q <;> simp [substPiece, pieceText, pieceValue]
  have hout : '{' ∉ rendersTo p u m pieces := by
    intro hmem2
    rw [rendersTo, List.mem_join] at hmem2
    obtain ⟨s, hs, hmem3⟩ := hmem2
    obtain ⟨q, hq, rfl⟩ := List.mem_map.mp hs
    cases q with
    | lit s' => exact hlit s' hq hmem3
    | platform => exact hp hmem3
    | user => exact hu hmem3
    | message => exact hm hmem3
  have hid : ∀ s, '{' ∉ s → render s p u m = s := by
    intro s hs
    show replaceList (replaceList (replaceList s tok_platform p)
      tok_user u) tok_message m = s
    have s1 : replaceList s tok_platform p = s :=
      replaceList_no_lbrace hs (strL "platform\x7d") p
    rw [s1]
    have s2 : replaceList s tok_user u = s :=
      replaceList_no_lbrace hs (strL "user\x7d") u
    rw [s2]
    exact replaceList_no_lbrace hs (strL "message\x7d") m
  refine ⟨fun _ => rfl, ?_, hout, ?_, hid⟩
  · show replaceList (replaceList (replaceList (tplText pieces)
      tok_platform p) tok_user u) tok_message m = rendersTo p u m pieces
    rw [h1, h2, h3, hfinal]
  · exact ⟨not_infix_of_lbrace_notMem (strL "platform\x7d") hout,
      not_infix_of_lbrace_notMem (strL "user\x7d") hout,
      not_infix_of_lbrace_notMem (strL "message\x7d") hout⟩

/-- C8 witness: the template of Scenario B, a three-token template
`{platform} - {user}: {message}`, rendered with Steam/Zed/"hello world" —
every token is replaced, the output is the expected text, and no token
survives into it; the default template is likewise a brace-free piece
assembly. -/
theorem c8_witness :
    render (strL "{platform} - {user}: {message}") (strL "Steam")
        (strL "Zed") (strL "hello world") =
      strL "Steam - Zed: hello world" ∧
    ¬ tok_user <:+: strL "Steam - Zed: hello world" ∧
    tplText [TplPiece.lit (strL "🧟 "), TplPiece.platform,
      TplPiece.lit (strL " — **"), TplPiece.user, TplPiece.lit (strL "**: "),
      TplPiece.message] = default_template := by
  have h := c8_template_rendering
    [TplPiece.platform, TplPiece.lit (strL " - "), TplPiece.user,
     TplPiece.lit (strL ": "), TplPiece.message]
    (strL "Steam") (strL "Zed") (strL "hello world")
    (by
      intro s hs
      simp only [List.mem_cons, List.not_mem_nil, or_false, reduceCtorEq,
        false_or, TplPiece.lit.injEq] at hs
      rcases hs with rfl | rfl <;> decide)
    (by decide) (by decide) (by decide)
  have e1 : tplText [TplPiece.platform, TplPiece.lit (strL " - "),
      TplPiece.user, TplPiece.lit (strL ": "), TplPiece.message] =
      strL "{platform} - {user}: {message}" := by decide
  have e2 : rendersTo (strL "Steam") (strL "Zed") (strL "hello world")
      [TplPiece.platform, TplPiece.lit (strL " - "), TplPiece.user,
       TplPiece.lit (strL ": "), TplPiece.message] =
      strL "Steam - Zed: hello world" := by decide
  refine ⟨?_, ?_, by decide⟩
  · rw [← e1, ← e2]
    exact h.2.1
  · rw [← e2]
    exact h.2.2.2.1.2.1
